import Mathlib

/-!
Shallow embedding of the configuration-option subsystem of the meson
repository: the option variants of mesonlib.py, the template engine
(do_replacement, do_mesondefine, do_conf_file, replace_if_different),
the configurator (Conf of mesonbuild/mconf.py and of mesonconf.py) and
its entry-point control flow.

Python strings are modelled as lists of characters, Python ints as Int
(Python integers are unbounded), the file system as a function from
paths to optional file records, and raised exceptions as Except /
error-sum results.  Loops without a structural bound carry explicit
fuel; a result of none means the fuel ran out before the loop finished.
-/

set_option maxRecDepth 4000

abbrev Chars := List Char

/-- Python values that occur as a Configuration Mapping value or as an
option value in this code base: strings, integers, booleans and lists. -/
inductive PyVal where
  | pstr (s : Chars)
  | pint (n : Int)
  | pbool (b : Bool)
  | plist (xs : List PyVal)

/-- Membership test for one character, Python "c in s". -/
def hasChar (a : Char) : Chars → Bool
  | [] => false
  | c :: rest => c == a || hasChar a rest

/-- The Configuration Mapping handed to the template engine: a flat
finite mapping from identifiers to Python values.  Its "varname in
confdata.keys()" test and its "confdata.get(varname)" lookup (which
raises KeyError on a missing key) are both modelled by cLookup. -/
abbrev Confdata := List (Chars × PyVal)

def cLookup (cd : Confdata) (k : Chars) : Option PyVal :=
  match cd with
  | [] => none
  | (k', v) :: rest => if k' = k then some v else cLookup rest k

/-- Leftmost match of the Python regular expression at-(.*?)-at under
re.search: a match starts at an at-sign character that is followed by a
later at-sign with no newline in between (a dot in the pattern does not
match a newline), and the lazy group is the shortest such segment, the
text up to the next at-sign.  Returns the group of the leftmost match. -/
def findVarname : Chars → Option Chars
  | [] => none
  | c :: rest =>
    if c = '@' then
      let v := rest.takeWhile (fun d => d != '@')
      if hasChar '@' rest && !(hasChar '\n' v) then some v
      else findVarname rest
    else findVarname rest

/-- Worker for Python str.replace, structurally recursive on a fuel
that starts at the length of the scanned text; one unit of fuel is
spent per scanned position and a match skips at least its own length,
so the fuel never runs out before the text does (the fuel-zero case on
a nonempty text is unreachable and returns the text unchanged). -/
def replaceOccGo (var val : Chars) : Nat → Chars → Chars
  | _, [] => []
  | 0, cs => cs
  | fuel + 1, c :: rest =>
    if (('@' :: (var ++ ['@'])) : Chars).isPrefixOf (c :: rest) then
      val ++ replaceOccGo var val fuel (rest.drop (var.length + 1))
    else
      c :: replaceOccGo var val fuel rest

/-- Python str.replace of the pattern at-var-at by val: scan left to
right and replace every non-overlapping occurrence. -/
def replaceOcc (var val cs : Chars) : Chars :=
  replaceOccGo var val cs.length cs

/-- Worker for the decimal rendering, structurally recursive on a fuel
that starts at the number itself, which always dominates the number of
digits (the fuel-zero case is only reached at zero). -/
def natDigitsGo : Nat → Nat → Chars
  | 0, n => [Nat.digitChar n]
  | fuel + 1, n =>
    if n < 10 then [Nat.digitChar n]
    else natDigitsGo fuel (n / 10) ++ [Nat.digitChar (n % 10)]

/-- Decimal digits of a natural number, most significant first,
following Python str. -/
def natDigits (n : Nat) : Chars := natDigitsGo n n

/-- Python str of an int: decimal, with a minus sign when negative. -/
def intChars (i : Int) : Chars :=
  if i < 0 then '-' :: natDigits i.natAbs else natDigits i.toNat

/-- Python str of a bool. -/
def boolChars (b : Bool) : Chars := if b then "True".data else "False".data

/-- The do_replacement loop of mesonlib.py, with explicit fuel: search
for the leftmost placeholder, look the identifier up (a missing
identifier substitutes the empty string), replace every occurrence of
the placeholder, and rescan the line until no match remains.  Python
bool is a subclass of int, so a boolean value passes the isinstance int
check and is substituted as Python str of the bool; only a value that
is neither str nor int nor bool reaches the RuntimeError raise. -/
def do_replacement (fuel : Nat) (line : Chars) (cd : Confdata) :
    Option (Except Chars Chars) :=
  match fuel with
  | 0 => none
  | fuel + 1 =>
    match findVarname line with
    | none => some (.ok line)
    | some var =>
      match cLookup cd var with
      | some (.pstr s) => do_replacement fuel (replaceOcc var s line) cd
      | some (.pint n) => do_replacement fuel (replaceOcc var (intChars n) line) cd
      | some (.pbool b) => do_replacement fuel (replaceOcc var (boolChars b) line) cd
      | some (.plist _) =>
        some (.error ("Tried to replace a variable with something other than a string or int.".data))
      | none => do_replacement fuel (replaceOcc var [] line) cd

/-- Number of at-sign characters in a line: the termination measure of
the substitution loop of do_replacement. -/
def atCount : Chars → Nat
  | [] => 0
  | c :: rest => (if c = '@' then 1 else 0) + atCount rest

/-- A mapping value that cannot reintroduce a placeholder delimiter
when substituted: a string value with no at-sign character; integer
and boolean values never render with one, and any other kind stops the
loop with an error. -/
def valNoAt : PyVal → Bool
  | .pstr s => !(hasChar '@' s)
  | _ => true

/-- The termination precondition on a Configuration Mapping: no string
value contains an at-sign character. -/
def cdNoAt : Confdata → Bool
  | [] => true
  | (_, v) :: rest => valNoAt v && cdNoAt rest

/-- Python str.isspace characters relevant to str.split with no
separator argument. -/
def pyIsSpace (c : Char) : Bool :=
  c == ' ' || c == '\t' || c == '\n' || c == '\x0d' || c == '\x0b' || c == '\x0c'

/-- Worker for Python str.split with no argument: acc collects the
current token in reverse; whitespace ends the token. -/
def pySplitAux : Chars → Chars → List Chars
  | [], acc => if acc = [] then [] else [acc.reverse]
  | c :: rest, acc =>
    if pyIsSpace c then
      if acc = [] then pySplitAux rest []
      else acc.reverse :: pySplitAux rest []
    else pySplitAux rest (c :: acc)

/-- Python str.split with no argument: split on runs of whitespace and
drop empty pieces. -/
def pySplitWs (cs : Chars) : List Chars := pySplitAux cs []

/-- Python str.strip: drop whitespace from both ends. -/
def pyStrip (s : Chars) : Chars :=
  ((s.dropWhile pyIsSpace).reverse.dropWhile pyIsSpace).reverse

/-- Message of the MesonException raised when a mesondefine line does
not have exactly two tokens.  In the source the line is passed as a
second argument to the exception constructor instead of being
interpolated (a comma where a percent was intended); the model keeps
the stripped line as part of the message. -/
def mesondefineBadTokensMsg (line : Chars) : Chars :=
  "#mesondefine does not contain exactly two tokens: ".data ++ pyStrip line

def mesondefineUnknownTypeMsg (varname : Chars) : Chars :=
  "#mesondefine argument \"".data ++ varname ++ "\" is of unknown type.".data

/-- The do_mesondefine function of mesonlib.py: tokenize the directive
line with str.split, demand exactly two tokens, look the identifier up
and emit the matching macro line.  The isinstance bool test comes
before the isinstance int test, so booleans take the define/undef
branches. -/
def do_mesondefine (line : Chars) (cd : Confdata) : Except Chars Chars :=
  match pySplitWs line with
  | [_, varname] =>
    match cLookup cd varname with
    | none => .ok ("/* undef ".data ++ varname ++ " */\n".data)
    | some (.pbool true) => .ok ("#define ".data ++ varname ++ "\n".data)
    | some (.pbool false) => .ok ("#undef ".data ++ varname ++ "\n".data)
    | some (.pint n) => .ok ("#define ".data ++ varname ++ " ".data ++ intChars n ++ "\n".data)
    | some (.pstr s) => .ok ("#define ".data ++ varname ++ " ".data ++ s ++ "\n".data)
    | some (.plist _) => .error (mesondefineUnknownTypeMsg varname)
  | _ => .error (mesondefineBadTokensMsg line)

/-- Python file.readlines: split the contents after every newline,
keeping the newline; a last piece without a newline is kept when
nonempty. -/
def readlinesAux : Chars → Chars → List Chars
  | [], acc => if acc = [] then [] else [acc.reverse]
  | c :: rest, acc =>
    if c = '\n' then (('\n' :: acc).reverse) :: readlinesAux rest []
    else readlinesAux rest (c :: acc)

def readlines (cs : Chars) : List Chars := readlinesAux cs []

/-- The per-line dispatch and accumulation of do_conf_file: a line
starting with the mesondefine marker goes through do_mesondefine, any
other line through do_replacement; the rewritten lines are concatenated
in order (writelines concatenates). -/
def renderLines (fuel : Nat) (cd : Confdata) : List Chars → Option (Except Chars Chars)
  | [] => some (.ok [])
  | l :: rest =>
    let r :=
      if (("#mesondefine".data : Chars).isPrefixOf l) then some (do_mesondefine l cd)
      else do_replacement fuel l cd
    match r with
    | none => none
    | some (.error e) => some (.error e)
    | some (.ok l') =>
      match renderLines fuel cd rest with
      | none => none
      | some (.error e) => some (.error e)
      | some (.ok out) => some (.ok (l' ++ out))

/-- A file on disk: its byte contents, its modification time and its
permission bits. -/
structure FileRec where
  contents : Chars
  mtime : Nat
  mode : Nat
  deriving DecidableEq

/-- The file system as a partial map from paths to file records. -/
def FS := Chars → Option FileRec

/-- Opening a path for writing creates or truncates it; the new record
carries the current time as its modification time. -/
def fsWrite (fs : FS) (p : Chars) (r : FileRec) : FS :=
  fun q => if q = p then some r else fs q

/-- Model of os.unlink. -/
def fsUnlink (fs : FS) (p : Chars) : FS :=
  fun q => if q = p then none else fs q

/-- Model of os.replace: the record at the source path moves to the
destination path atomically.  A missing source would raise; in
do_conf_file the source is the temporary file that was just written,
so that branch is unreachable there. -/
def fsReplace (fs : FS) (src dst : Chars) : FS :=
  match fs src with
  | some r => fun q => if q = dst then some r else if q = src then none else fs q
  | none => fs

/-- Model of shutil.copymode: copy the permission bits of src onto dst.
A missing path would raise; in do_conf_file both were just checked or
written, so that branch is unreachable there. -/
def fsCopymode (fs : FS) (src dst : Chars) : FS :=
  match fs src, fs dst with
  | some s, some d => fsWrite fs dst ⟨d.contents, d.mtime, s.mode⟩
  | _, _ => fs

/-- The replace_if_different function of mesonlib.py: when the
destination exists and reads byte-identical to the temporary file,
unlink the temporary file and leave the destination alone; otherwise
(including when the destination does not exist, the FileNotFoundError
branch) move the temporary file over the destination. -/
def replace_if_different (fs : FS) (dst dst_tmp : Chars) : FS :=
  match fs dst with
  | none => fsReplace fs dst_tmp dst
  | some d =>
    match fs dst_tmp with
    | none => fsReplace fs dst_tmp dst
    | some t =>
      if d.contents = t.contents then fsUnlink fs dst_tmp
      else fsReplace fs dst_tmp dst

/-- The do_conf_file function of mesonlib.py: read the source template,
rewrite it line by line, write the output to dst plus a tilde with the
current time tmpMtime and the default creation mode tmpMode, copy the
permission bits of the source onto the temporary file, and commit with
replace_if_different.  A missing source file raises FileNotFoundError;
a rendering error propagates; none means the substitution loop ran out
of fuel. -/
def do_conf_file (fuel : Nat) (fs : FS) (src dst : Chars) (cd : Confdata)
    (tmpMtime tmpMode : Nat) : Option (Except Chars FS) :=
  match fs src with
  | none => some (.error ("FileNotFoundError".data))
  | some f =>
    match renderLines fuel cd (readlines f.contents) with
    | none => none
    | some (.error e) => some (.error e)
    | some (.ok out) =>
      let tmp := dst ++ ['~']
      let fs1 := fsWrite fs tmp ⟨out, tmpMtime, tmpMode⟩
      let fs2 := fsCopymode fs1 src tmp
      some (.ok (replace_if_different fs2 dst tmp))

/-- Lowercasing of one character as Python str.lower acts on the ASCII
range; the option values this code validates are ASCII tokens. -/
def pyLowerChar (c : Char) : Char :=
  if 'A' ≤ c ∧ c ≤ 'Z' then Char.ofNat (c.toNat + 32) else c

/-- Python str.lower on a string. -/
def pyLower (s : Chars) : Chars := s.map pyLowerChar

/-- The tobool method of UserBooleanOption in mesonlib.py: a native
bool passes through, a string is lowercased and compared against the
two literals, anything else fails.  A non-string non-bool argument has
no lower method in Python; that raise is kept as an error here. -/
def UserBooleanOption_tobool (thing : PyVal) : Except Chars Bool :=
  match thing with
  | .pbool b => .ok b
  | .pstr s =>
    if pyLower s = "true".data then .ok true
    else if pyLower s = "false".data then .ok false
    else .error ("Value ".data ++ s ++ " is not boolean (true or false).".data)
  | _ => .error ("AttributeError: object has no attribute lower".data)

/-- The parse_string method of UserBooleanOption in mesonlib.py: only
the exact case-sensitive literals false and true are accepted. -/
def UserBooleanOption_parse_string (name : Chars) (valuestring : Chars) : Except Chars Bool :=
  if valuestring = "false".data then .ok false
  else if valuestring = "true".data then .ok true
  else .error ("Value \"".data ++ valuestring ++ "\" for boolean option \"".data ++
    name ++ "\" is not a boolean.".data)

/-- Message of the InvalidChoice error of UserComboOption.set_value:
all choices, quoted and comma-joined, in declaration order. -/
def comboChoicesJoined : List Chars → Chars
  | [] => []
  | [c] => '"' :: (c ++ ['"'])
  | c :: rest => ('"' :: (c ++ ['"'])) ++ ", ".data ++ comboChoicesJoined rest

def comboInvalidMsg (newvalue name : Chars) (choices : List Chars) : Chars :=
  "Value \"".data ++ newvalue ++ "\" for combo option \"".data ++ name ++
  "\" is not one of the choices. Possible choices are: ".data ++
  comboChoicesJoined choices ++ ['.']

/-- Element check of UserStringArrayOption.set_value: every element of
the list must be a Python string. -/
def allStrings : List PyVal → Bool
  | [] => true
  | .pstr _ :: rest => allStrings rest
  | _ => false

def malformedArrayMsg (s : Chars) : Chars :=
  "Valuestring does not define an array: ".data ++ s

def notArrayMsg : Chars := "String array value is not an array.".data

def nonStringElementMsg : Chars := "String array element not a string.".data

/-- The set_value method of UserStringArrayOption in mesonlib.py.  A
textual input must begin with an opening bracket and is then passed to
Python eval; eval runs arbitrary Python, so the embedding takes the
value eval produced as the explicit argument evalResult (eval can also
raise on its own, which set_value does not catch).  The result, or a
non-textual input directly, must be a list whose elements are all
strings. -/
def UserStringArrayOption_set_value (newvalue : PyVal) (evalResult : PyVal) :
    Except Chars (List PyVal) :=
  match newvalue with
  | .pstr s =>
    if s.head? = some '[' then
      (match evalResult with
       | .plist xs => if allStrings xs then .ok xs else .error nonStringElementMsg
       | _ => .error notArrayMsg)
    else .error (malformedArrayMsg s)
  | .plist xs => if allStrings xs then .ok xs else .error nonStringElementMsg
  | _ => .error notArrayMsg

/-- Minimal Python repr of the values above, as used by str on a list:
strings are quoted, list elements are comma-joined in brackets. -/
def pyRepr : PyVal → Chars
  | .pstr s => Char.ofNat 39 :: (s ++ [Char.ofNat 39])
  | .pint n => intChars n
  | .pbool b => boolChars b
  | .plist xs => '[' :: (pyReprList xs ++ [']'])
where pyReprList : List PyVal → Chars
  | [] => []
  | [x] => pyRepr x
  | x :: y :: rest => pyRepr x ++ ", ".data ++ pyReprList (y :: rest)

/-- Python str of a value: strings pass through unquoted, everything
else as its repr. -/
def pyStr : PyVal → Chars
  | .pstr s => s
  | v => pyRepr v

/-- Value rendering of one table cell in print_aligned of
mesonbuild/mconf.py: an isinstance bool test picks the lowercase
true/false spelling, every other value is displayed as its own str. -/
def renderCellNew (v : PyVal) : Chars :=
  match v with
  | .pbool b => if b then "true".data else "false".data
  | _ => pyStr v

/-- Value rendering of one table cell in print_aligned of mesonconf.py:
the value is displayed as lowercase true when its str equals the
literal True and as lowercase false in every other case. -/
def renderCellOld (v : PyVal) : Chars :=
  if pyStr v = "True".data then "true".data else "false".data

/-- Python exceptions as they matter to the entry points: ConfException
is the only class the entry points catch; MesonException (raised by the
option variants of mesonlib.py, and the parent class of ConfException
in mconf.py) and any other exception propagate to the interpreter,
which prints a traceback and ends the process with status 1. -/
inductive PyExc where
  | confExc (msg : Chars)
  | mesonExc (msg : Chars)
  | otherExc (msg : Chars)
  deriving DecidableEq

/-- An option object of mesonlib.py: one of the four variants, carrying
its name and its current, always-validated value. -/
inductive UOpt where
  | ustring (name : Chars) (value : Chars)
  | ubool (name : Chars) (value : Bool)
  | ucombo (name : Chars) (choices : List Chars) (value : Chars)
  | uarray (name : Chars) (value : List PyVal)

/-- Assignment through an option object's set_value, as mconf.py calls
it with the text after the equals sign.  ev is the Python eval oracle
used by the string-array variant: eval runs arbitrary Python, so the
embedding takes its outcome as a function argument, none meaning eval
itself raised. -/
def uopt_set_value (ev : Chars → Option PyVal) (opt : UOpt) (v : Chars) : Except PyExc UOpt :=
  match opt with
  | .ustring n _ => .ok (.ustring n v)
  | .ubool n _ =>
    match UserBooleanOption_tobool (.pstr v) with
    | .ok b => .ok (.ubool n b)
    | .error e => .error (.mesonExc e)
  | .ucombo n choices _ =>
    if v ∈ choices then .ok (.ucombo n choices v)
    else .error (.mesonExc (comboInvalidMsg v n choices))
  | .uarray n _ =>
    if v.head? = some '[' then
      (match ev v with
       | none => .error (.otherExc ("eval raised".data))
       | some r =>
         match UserStringArrayOption_set_value (.pstr v) r with
         | .ok xs => .ok (.uarray n xs)
         | .error e => .error (.mesonExc e))
    else .error (.mesonExc (malformedArrayMsg v))

def alookup {α : Type} (l : List (Chars × α)) (k : Chars) : Option α :=
  match l with
  | [] => none
  | (k', v) :: rest => if k' = k then some v else alookup rest k

def aupdate {α : Type} (l : List (Chars × α)) (k : Chars) (v : α) : List (Chars × α) :=
  match l with
  | [] => []
  | (k', v') :: rest => if k' = k then (k', v) :: rest else (k', v') :: aupdate rest k v

/-- The Option Store held by the coredata snapshot, as mconf.py uses
it.  Modelled from the spec: the coredata module itself is not under
src, only its callers are; per the spec the builtin partition is a
fixed name set whose is_builtin_option test is membership and whose
set_builtin_option validates through the builtin option's variant,
which is the mesonlib.py code embedded above. -/
structure Coredata where
  builtin_options : List (Chars × UOpt)
  user_options : List (Chars × UOpt)
  compiler_options : List (Chars × UOpt)
  external_args : List (Chars × List Chars)
  external_link_args : List (Chars × List Chars)

/-- Key of an assignment entry: the text before the first equals
sign, Python split with maxsplit one. -/
def eqSplitKey (o : Chars) : Chars := o.takeWhile (fun c => c != '=')

/-- Value of an assignment entry: the text after the first equals sign. -/
def eqSplitVal (o : Chars) : Chars := (o.dropWhile (fun c => c != '=')).tail

/-- One iteration of Conf.set_options of mesonbuild/mconf.py: check
the entry has the key-equals-value shape, split at the first equals
sign, and dispatch in precedence order builtin, user option, compiler
option, linkargs suffix, args suffix, unknown. -/
def set_option_entry (ev : Chars → Option PyVal) (cd : Coredata) (o : Chars) :
    Except PyExc Coredata :=
  if hasChar '=' o = false then
    .error (.confExc ("Value \"".data ++ o ++ "\" not of type \"a=b\".".data))
  else
    let k := eqSplitKey o
    let v := eqSplitVal o
    match alookup cd.builtin_options k with
    | some opt =>
      (match uopt_set_value ev opt v with
       | .ok opt' => .ok { cd with builtin_options := aupdate cd.builtin_options k opt' }
       | .error e => .error e)
    | none =>
    match alookup cd.user_options k with
    | some opt =>
      (match uopt_set_value ev opt v with
       | .ok opt' => .ok { cd with user_options := aupdate cd.user_options k opt' }
       | .error e => .error e)
    | none =>
    match alookup cd.compiler_options k with
    | some opt =>
      (match uopt_set_value ev opt v with
       | .ok opt' => .ok { cd with compiler_options := aupdate cd.compiler_options k opt' }
       | .error e => .error e)
    | none =>
    if ("linkargs".data : Chars).isSuffixOf k then
      let lang := k.take (k.length - 8)
      match alookup cd.external_link_args lang with
      | some _ =>
        .ok { cd with external_link_args := aupdate cd.external_link_args lang (pySplitWs v) }
      | none => .error (.confExc ("Unknown language ".data ++ lang ++ " in linkargs.".data))
    else if ("args".data : Chars).isSuffixOf k then
      let lang := k.take (k.length - 4)
      match alookup cd.external_args lang with
      | some _ =>
        .ok { cd with external_args := aupdate cd.external_args lang (pySplitWs v) }
      | none => .error (.confExc ("Unknown language ".data ++ lang ++ " in compile args".data))
    else .error (.confExc ("Unknown option ".data ++ k ++ ".".data))

/-- The for loop of Conf.set_options of mesonbuild/mconf.py: entries in
order, the first raised exception aborts the loop; the returned store
is the in-memory state at that moment (Python mutates self.coredata in
place), paired with the exception if one was raised. -/
def set_options (ev : Chars → Option PyVal) (cd : Coredata) :
    List Chars → Coredata × Option PyExc
  | [] => (cd, none)
  | o :: rest =>
    match set_option_entry ev cd o with
    | .ok cd' => set_options ev cd' rest
    | .error e => (cd, some e)

/-- The build-description snapshot, owned by the build-graph generator;
the configurator only reads the two directory paths from it. -/
structure BuildFile where
  source_dir : Chars
  build_dir : Chars

/-- A deserialized snapshot file: pickled payload tagged with the
version of the tool that wrote it. -/
structure SnapFile (α : Type) where
  version : Chars
  payload : α

/-- The two named files inside the fixed private subdirectory
meson-private of a build directory: the option snapshot coredata.dat
and the build-description snapshot build.dat; none models an absent
file. -/
structure BuildDirFiles (α : Type) where
  coredata_file : Option (SnapFile α)
  build_file : Option BuildFile

def notConfMsg (build_dir : Chars) : Chars :=
  "Directory ".data ++ build_dir ++ " does not seem to be a Meson build directory.".data

def versionMismatchMsg (running loaded : Chars) : Chars :=
  "Version mismatch (".data ++ running ++ " vs ".data ++ loaded ++ ")".data

/-- Conf.__init__ as written identically in mesonbuild/mconf.py and in
mesonconf.py: both named files must exist, then both snapshots are
deserialized, then the loaded option snapshot's version must equal the
running tool's version; each failure raises ConfException, so no Conf
object is produced.  The payload type is the store type of the
respective entry point. -/
def conf_init {α : Type} (build_dir : Chars) (d : BuildDirFiles α) (tool_version : Chars) :
    Except PyExc (α × BuildFile) :=
  match d.coredata_file, d.build_file with
  | some cf, some bf =>
    if cf.version = tool_version then .ok (cf.payload, bf)
    else .error (.confExc (versionMismatchMsg tool_version cf.version))
  | _, _ => .error (.confExc (notConfMsg build_dir))

/-- Observable outcome of one entry-point invocation: the process exit
status, whether the fixed lead-in line of the error handler was
printed, and the store passed to save when save was called. -/
structure RunOutcome (α : Type) where
  exitCode : Nat
  leadInPrinted : Bool
  saved : Option α

/-- The run function of mesonbuild/mconf.py after argument parsing:
more than one positional directory prints the two usage lines and
returns 1; otherwise Conf is constructed, the -D batch is applied and
saved, or the report is printed.  Only ConfException is caught and
turned into the lead-in line plus return 1; a MesonException raised by
an option variant, or any other exception, propagates and the
interpreter exits with status 1 without the lead-in. -/
def mconf_run (ev : Chars → Option PyVal) (build_dir : Chars) (d : BuildDirFiles Coredata)
    (tool_version : Chars) (ndirs : Nat) (sets : List Chars) : RunOutcome Coredata :=
  if 1 < ndirs then ⟨1, false, none⟩
  else
    match conf_init build_dir d tool_version with
    | .error (.confExc _) => ⟨1, true, none⟩
    | .error _ => ⟨1, false, none⟩
    | .ok (cd, _) =>
      if 0 < sets.length then
        match set_options ev cd sets with
        | (cd', none) => ⟨0, false, some cd'⟩
        | (_, some (.confExc _)) => ⟨1, true, none⟩
        | (_, some _) => ⟨1, false, none⟩
      else ⟨0, false, none⟩

/-- The flat option store of the older mesonconf.py entry point: the
core options live as plain attributes on the coredata object. -/
structure MCoredata where
  buildtype : Chars
  layout : Chars
  warning_level : Chars
  strip : Bool
  coverage : Bool
  use_pch : Bool
  unity : Bool
  prefixDir : Chars
  libdir : Chars
  bindir : Chars
  includedir : Chars
  datadir : Chars
  mandir : Chars
  localedir : Chars
  user_options : List (Chars × UOpt)
  compiler_options : List (Chars × UOpt)
  external_args : List (Chars × List Chars)
  external_link_args : List (Chars × List Chars)

/-- POSIX os.path.isabs: the path starts with a slash. -/
def pyIsAbs : Chars → Bool
  | '/' :: _ => true
  | _ => false

/-- One iteration of Conf.set_options of mesonconf.py.  bt, lay and wl
are the build_types, layouts and warning_levels lists imported from the
meson module, which is not under src, so they are taken as parameters.
The strip, coverage, pch and unity branches call self.tobool, but the
Conf class of mesonconf.py defines no tobool method, so those branches
raise AttributeError, which is not a ConfException. -/
def mesonconf_set_option_entry (bt lay wl : List Chars) (ev : Chars → Option PyVal)
    (cd : MCoredata) (o : Chars) : Except PyExc MCoredata :=
  if hasChar '=' o = false then
    .error (.confExc ("Value \"".data ++ o ++ "\" not of type \"a=b\".".data))
  else
    let k := eqSplitKey o
    let v := eqSplitVal o
    if k = "buildtype".data then
      if v ∈ bt then .ok { cd with buildtype := v }
      else .error (.confExc ("Invalid build type ".data ++ v ++ ".".data))
    else if k = "layout".data then
      if v ∈ lay then .ok { cd with layout := v }
      else .error (.confExc ("Invalid layout type ".data ++ v ++ ".".data))
    else if k = "warnlevel".data then
      if v ∈ wl then .ok { cd with warning_level := v }
      else .error (.confExc ("Invalid warning level ".data ++ v ++ ".".data))
    else if k = "strip".data ∨ k = "coverage".data ∨ k = "pch".data ∨ k = "unity".data then
      .error (.otherExc ("AttributeError: Conf object has no attribute tobool".data))
    else if k = "prefix".data then
      if pyIsAbs v then .ok { cd with prefixDir := v }
      else .error (.confExc ("Install prefix ".data ++ v ++ " is not an absolute path.".data))
    else if k = "libdir".data then
      if pyIsAbs v then
        .error (.confExc ("Library dir ".data ++ v ++ " must not be an absolute path.".data))
      else .ok { cd with libdir := v }
    else if k = "bindir".data then
      if pyIsAbs v then
        .error (.confExc ("Binary dir ".data ++ v ++ " must not be an absolute path.".data))
      else .ok { cd with bindir := v }
    else if k = "includedir".data then
      if pyIsAbs v then
        .error (.confExc ("Include dir ".data ++ v ++ " must not be an absolute path.".data))
      else .ok { cd with includedir := v }
    else if k = "datadir".data then
      if pyIsAbs v then
        .error (.confExc ("Data dir ".data ++ v ++ " must not be an absolute path.".data))
      else .ok { cd with datadir := v }
    else if k = "mandir".data then
      if pyIsAbs v then
        .error (.confExc ("Man dir ".data ++ v ++ " must not be an absolute path.".data))
      else .ok { cd with mandir := v }
    else if k = "localedir".data then
      if pyIsAbs v then
        .error (.confExc ("Locale dir ".data ++ v ++ " must not be an absolute path.".data))
      else .ok { cd with localedir := v }
    else
    match alookup cd.user_options k with
    | some opt =>
      (match uopt_set_value ev opt v with
       | .ok opt' => .ok { cd with user_options := aupdate cd.user_options k opt' }
       | .error e => .error e)
    | none =>
    match alookup cd.compiler_options k with
    | some opt =>
      (match uopt_set_value ev opt v with
       | .ok opt' => .ok { cd with compiler_options := aupdate cd.compiler_options k opt' }
       | .error e => .error e)
    | none =>
    if ("linkargs".data : Chars).isSuffixOf k then
      let lang := k.take (k.length - 8)
      match alookup cd.external_link_args lang with
      | some _ =>
        .ok { cd with external_link_args := aupdate cd.external_link_args lang (pySplitWs v) }
      | none => .error (.confExc ("Unknown language ".data ++ lang ++ " in linkargs.".data))
    else if ("args".data : Chars).isSuffixOf k then
      let lang := k.take (k.length - 4)
      match alookup cd.external_args lang with
      | some _ =>
        .ok { cd with external_args := aupdate cd.external_args lang (pySplitWs v) }
      | none => .error (.confExc ("Unknown language ".data ++ lang ++ " in compile args".data))
    else .error (.confExc ("Unknown option ".data ++ k ++ ".".data))

/-- The for loop of Conf.set_options of mesonconf.py, like set_options
above. -/
def mesonconf_set_options (bt lay wl : List Chars) (ev : Chars → Option PyVal)
    (cd : MCoredata) : List Chars → MCoredata × Option PyExc
  | [] => (cd, none)
  | o :: rest =>
    match mesonconf_set_option_entry bt lay wl ev cd o with
    | .ok cd' => mesonconf_set_options bt lay wl ev cd' rest
    | .error e => (cd, some e)

/-- The top-level block of mesonconf.py after argument parsing.  More
than one positional directory prints the usage lines and calls
sys.exit with 1.  Inside the try block a ConfException is caught and
printed with the fixed lead-in, but unlike mconf.py the handler never
exits or re-raises, so the script falls off the end of the module and
the process ends with status 0.  Exceptions of any other class
propagate and end the process with status 1. -/
def mesonconf_main (bt lay wl : List Chars) (ev : Chars → Option PyVal) (build_dir : Chars)
    (d : BuildDirFiles MCoredata) (tool_version : Chars) (ndirs : Nat) (sets : List Chars) :
    RunOutcome MCoredata :=
  if 1 < ndirs then ⟨1, false, none⟩
  else
    match conf_init build_dir d tool_version with
    | .error (.confExc _) => ⟨0, true, none⟩
    | .error _ => ⟨1, false, none⟩
    | .ok (cd, _) =>
      if 0 < sets.length then
        match mesonconf_set_options bt lay wl ev cd sets with
        | (cd', none) => ⟨0, false, some cd'⟩
        | (_, some (.confExc _)) => ⟨0, true, none⟩
        | (_, some _) => ⟨1, false, none⟩
      else ⟨0, false, none⟩

/-! Helper lemmas. -/

theorem versionMismatchMsg_ne_notConfMsg (a b c : Chars) :
    versionMismatchMsg a b ≠ notConfMsg c := by
  intro h
  have h' := congrArg List.head? h
  have e1 : (versionMismatchMsg a b).head? = some 'V' := rfl
  have e2 : (notConfMsg c).head? = some 'D' := rfl
  rw [e1, e2] at h'
  simp at h'

theorem do_mesondefine_two (line : Chars) (cd : Confdata) (m v : Chars)
    (hs : pySplitWs line = [m, v]) :
    do_mesondefine line cd =
      match cLookup cd v with
      | none => .ok ("/* undef ".data ++ v ++ " */\n".data)
      | some (.pbool true) => .ok ("#define ".data ++ v ++ "\n".data)
      | some (.pbool false) => .ok ("#undef ".data ++ v ++ "\n".data)
      | some (.pint n) => .ok ("#define ".data ++ v ++ " ".data ++ intChars n ++ "\n".data)
      | some (.pstr s) => .ok ("#define ".data ++ v ++ " ".data ++ s ++ "\n".data)
      | some (.plist _) => .error (mesondefineUnknownTypeMsg v) := by
  unfold do_mesondefine
  rw [hs]

theorem ne_append_tilde (l : Chars) : l ≠ l ++ ['~'] := by
  intro h
  have := congrArg List.length h
  simp at this

/-- The commit behaviour of do_conf_file on a readable source whose
rendering succeeds: the temporary file is gone afterwards, every other
path except the destination is untouched, the destination is untouched
(modification time included) when its contents already equal the
rendered output, and otherwise holds the rendered output with the
fresh modification time and the source's permission bits. -/
theorem do_conf_file_commit (fuel : Nat) (fs : FS) (src dst : Chars) (cd : Confdata)
    (m mo : Nat) (f : FileRec) (out : Chars)
    (hsd : src ≠ dst ++ ['~'])
    (hsrc : fs src = some f)
    (hr : renderLines fuel cd (readlines f.contents) = some (.ok out)) :
    ∃ fs', do_conf_file fuel fs src dst cd m mo = some (.ok fs') ∧
      fs' (dst ++ ['~']) = none ∧
      (∀ p, p ≠ dst → p ≠ dst ++ ['~'] → fs' p = fs p) ∧
      ((∃ d, fs dst = some d ∧ d.contents = out) → fs' dst = fs dst) ∧
      ((∀ d, fs dst = some d → d.contents ≠ out) → fs' dst = some ⟨out, m, f.mode⟩) := by
  have hdt : dst ≠ dst ++ ['~'] := ne_append_tilde dst
  have hfs2 : ∀ q, fsCopymode (fsWrite fs (dst ++ ['~']) ⟨out, m, mo⟩) src (dst ++ ['~']) q
      = (if q = dst ++ ['~'] then some ⟨out, m, f.mode⟩ else fs q) := by
    intro q
    unfold fsCopymode
    rw [show fsWrite fs (dst ++ ['~']) ⟨out, m, mo⟩ src = fs src from by
      unfold fsWrite; rw [if_neg hsd]]
    rw [hsrc]
    rw [show fsWrite fs (dst ++ ['~']) ⟨out, m, mo⟩ (dst ++ ['~']) = some ⟨out, m, mo⟩ from by
      unfold fsWrite; rw [if_pos rfl]]
    show fsWrite (fsWrite fs (dst ++ ['~']) ⟨out, m, mo⟩) (dst ++ ['~']) ⟨out, m, f.mode⟩ q = _
    unfold fsWrite
    by_cases hq : q = dst ++ ['~'] <;> simp [hq]
  have hrun : do_conf_file fuel fs src dst cd m mo =
      some (.ok (replace_if_different
        (fsCopymode (fsWrite fs (dst ++ ['~']) ⟨out, m, mo⟩) src (dst ++ ['~']))
        dst (dst ++ ['~']))) := by
    unfold do_conf_file
    rw [hsrc]
    simp only [hr]
  have hF2dst : fsCopymode (fsWrite fs (dst ++ ['~']) ⟨out, m, mo⟩) src (dst ++ ['~']) dst
      = fs dst := by rw [hfs2, if_neg hdt]
  have hF2tmp : fsCopymode (fsWrite fs (dst ++ ['~']) ⟨out, m, mo⟩) src (dst ++ ['~'])
      (dst ++ ['~']) = some ⟨out, m, f.mode⟩ := by rw [hfs2, if_pos rfl]
  refine ⟨replace_if_different
      (fsCopymode (fsWrite fs (dst ++ ['~']) ⟨out, m, mo⟩) src (dst ++ ['~']))
      dst (dst ++ ['~']), hrun, ?_⟩
  have hreplq : ∀ q, fsReplace
      (fsCopymode (fsWrite fs (dst ++ ['~']) ⟨out, m, mo⟩) src (dst ++ ['~']))
      (dst ++ ['~']) dst q
      = (if q = dst then some ⟨out, m, f.mode⟩ else
          if q = dst ++ ['~'] then none else fs q) := by
    intro q
    unfold fsReplace
    rw [hF2tmp]
    show (if q = dst then some ⟨out, m, f.mode⟩ else
      if q = dst ++ ['~'] then none
      else fsCopymode (fsWrite fs (dst ++ ['~']) ⟨out, m, mo⟩) src (dst ++ ['~']) q) = _
    by_cases h1 : q = dst
    · simp [h1]
    · by_cases h2 : q = dst ++ ['~'] <;> simp [h1, h2, hfs2]
  cases hd : fs dst with
  | none =>
    have hrid : replace_if_different
        (fsCopymode (fsWrite fs (dst ++ ['~']) ⟨out, m, mo⟩) src (dst ++ ['~']))
        dst (dst ++ ['~'])
        = fsReplace
            (fsCopymode (fsWrite fs (dst ++ ['~']) ⟨out, m, mo⟩) src (dst ++ ['~']))
            (dst ++ ['~']) dst := by
      unfold replace_if_different
      rw [hF2dst, hd]
    refine ⟨?_, ?_, ?_, ?_⟩
    · rw [hrid, hreplq, if_neg (fun h => hdt h.symm), if_pos rfl]
    · intro p h1 h2
      rw [hrid, hreplq, if_neg h1, if_neg h2]
    · rintro ⟨d, hd', -⟩
      exact absurd hd' (by simp)
    · intro _
      rw [hrid, hreplq, if_pos rfl]
  | some d =>
    by_cases hcd : d.contents = out
    · have hrid : replace_if_different
          (fsCopymode (fsWrite fs (dst ++ ['~']) ⟨out, m, mo⟩) src (dst ++ ['~']))
          dst (dst ++ ['~'])
          = fsUnlink
              (fsCopymode (fsWrite fs (dst ++ ['~']) ⟨out, m, mo⟩) src (dst ++ ['~']))
              (dst ++ ['~']) := by
        unfold replace_if_different
        rw [hF2dst, hd, hF2tmp]
        show (if d.contents = out then
            fsUnlink
              (fsCopymode (fsWrite fs (dst ++ ['~']) ⟨out, m, mo⟩) src (dst ++ ['~']))
              (dst ++ ['~'])
          else
            fsReplace
              (fsCopymode (fsWrite fs (dst ++ ['~']) ⟨out, m, mo⟩) src (dst ++ ['~']))
              (dst ++ ['~']) dst) = _
        rw [if_pos hcd]
      refine ⟨?_, ?_, ?_, ?_⟩
      · rw [hrid]
        unfold fsUnlink
        rw [if_pos rfl]
      · intro p h1 h2
        rw [hrid]
        unfold fsUnlink
        rw [if_neg h2, hfs2, if_neg h2]
      · intro _
        rw [hrid]
        unfold fsUnlink
        rw [if_neg (fun h => hdt h), hF2dst, hd]
      · intro hall
        exact absurd hcd (hall d rfl)
    · have hrid : replace_if_different
          (fsCopymode (fsWrite fs (dst ++ ['~']) ⟨out, m, mo⟩) src (dst ++ ['~']))
          dst (dst ++ ['~'])
          = fsReplace
              (fsCopymode (fsWrite fs (dst ++ ['~']) ⟨out, m, mo⟩) src (dst ++ ['~']))
              (dst ++ ['~']) dst := by
        unfold replace_if_different
        rw [hF2dst, hd, hF2tmp]
        show (if d.contents = out then
            fsUnlink
              (fsCopymode (fsWrite fs (dst ++ ['~']) ⟨out, m, mo⟩) src (dst ++ ['~']))
              (dst ++ ['~'])
          else
            fsReplace
              (fsCopymode (fsWrite fs (dst ++ ['~']) ⟨out, m, mo⟩) src (dst ++ ['~']))
              (dst ++ ['~']) dst) = _
        rw [if_neg hcd]
      refine ⟨?_, ?_, ?_, ?_⟩
      · rw [hrid, hreplq, if_neg (fun h => hdt h.symm), if_pos rfl]
      · intro p h1 h2
        rw [hrid, hreplq, if_neg h1, if_neg h2]
      · rintro ⟨d', hd', hc'⟩
        obtain rfl : d' = d := by
          injection hd' with h
          exact h.symm
        exact absurd hc' hcd
      · intro _
        rw [hrid, hreplq, if_pos rfl]

/-- A successful do_conf_file run presupposes a readable source and a
successful rendering. -/
theorem do_conf_file_ok_inv (fuel : Nat) (fs : FS) (src dst : Chars) (cd : Confdata)
    (m mo : Nat) (fs' : FS)
    (h : do_conf_file fuel fs src dst cd m mo = some (.ok fs')) :
    ∃ f out, fs src = some f ∧
      renderLines fuel cd (readlines f.contents) = some (.ok out) := by
  unfold do_conf_file at h
  split at h
  · simp at h
  · rename_i f hsrc
    split at h
    · simp at h
    · simp at h
    · rename_i out hr
      exact ⟨f, out, hsrc, hr⟩

theorem do_replacement_succ (n : Nat) (line : Chars) (cd : Confdata) :
    do_replacement (n + 1) line cd =
      match findVarname line with
      | none => some (.ok line)
      | some var =>
        match cLookup cd var with
        | some (.pstr s) => do_replacement n (replaceOcc var s line) cd
        | some (.pint m) => do_replacement n (replaceOcc var (intChars m) line) cd
        | some (.pbool b) => do_replacement n (replaceOcc var (boolChars b) line) cd
        | some (.plist _) =>
          some (.error ("Tried to replace a variable with something other than a string or int.".data))
        | none => do_replacement n (replaceOcc var [] line) cd := rfl

theorem allStrings_iff (xs : List PyVal) :
    allStrings xs = true ↔ ∀ x ∈ xs, ∃ s, x = PyVal.pstr s := by
  induction xs with
  | nil => simp [allStrings]
  | cons x rest ih =>
    cases x with
    | pstr s => simp [allStrings, ih]
    | pint n => simp [allStrings]
    | pbool b => simp [allStrings]
    | plist l => simp [allStrings]

/-! Claim theorems. -/

/-- C2 counterexample: the claim says the raw input True yields the
matching truth value on the parse_string path, but parse_string of
UserBooleanOption is case sensitive and rejects True with the
InvalidBoolean error. -/
theorem C2_counterexample :
    UserBooleanOption_parse_string ("opt".data) ("True".data) =
      .error (("Value \"True\" for boolean option \"opt\" is not a boolean.").data) := by
  rfl

/-- C2 (amended): a native boolean is accepted as itself; the
set_value/tobool path lowercases a textual input and accepts exactly
the strings whose lowercase form is true or false, so all five listed
casings and also casings such as FALSE succeed there, everything else
fails with InvalidBoolean; the parse_string path accepts exactly the
case-sensitive literals true and false, so True, TRUE and False fail
there with InvalidBoolean. -/
theorem C2_amended_thm :
    (∀ b, UserBooleanOption_tobool (.pbool b) = .ok b) ∧
    (UserBooleanOption_tobool (.pstr ("true".data)) = .ok true) ∧
    (UserBooleanOption_tobool (.pstr ("True".data)) = .ok true) ∧
    (UserBooleanOption_tobool (.pstr ("TRUE".data)) = .ok true) ∧
    (UserBooleanOption_tobool (.pstr ("false".data)) = .ok false) ∧
    (UserBooleanOption_tobool (.pstr ("False".data)) = .ok false) ∧
    (UserBooleanOption_tobool (.pstr ("FALSE".data)) = .ok false) ∧
    (∀ s, (∃ b, UserBooleanOption_tobool (.pstr s) = .ok b) ↔
      (pyLower s = "true".data ∨ pyLower s = "false".data)) ∧
    (∀ n s, (∃ b, UserBooleanOption_parse_string n s = .ok b) ↔
      (s = "false".data ∨ s = "true".data)) := by
  refine ⟨fun b => rfl, rfl, rfl, rfl, rfl, rfl, rfl, ?_, ?_⟩
  · intro s
    by_cases h1 : pyLower s = "true".data
    · simp [UserBooleanOption_tobool, h1]
    · by_cases h2 : pyLower s = "false".data <;>
        simp [UserBooleanOption_tobool, h1, h2]
  · intro n s
    by_cases h1 : s = "false".data
    · simp [UserBooleanOption_parse_string, h1]
    · by_cases h2 : s = "true".data <;>
        simp [UserBooleanOption_parse_string, h1, h2]

/-- C4: Conf construction fails with the not-a-configured-directory
error exactly when one of the two named snapshot files is absent, fails
with the version-mismatch error exactly when both files are present but
the loaded option snapshot's embedded version differs from the running
tool's version, and produces a configurator state exactly when both
files are present and the versions agree, so every failure produces no
state at all. -/
theorem C4_snapshot_load {α : Type} :
    (∀ (bd : Chars) (d : BuildDirFiles α) (tv : Chars),
      conf_init bd d tv = .error (.confExc (notConfMsg bd)) ↔
        (d.coredata_file = none ∨ d.build_file = none)) ∧
    (∀ (bd : Chars) (d : BuildDirFiles α) (tv : Chars),
      (∃ a b, conf_init bd d tv = .error (.confExc (versionMismatchMsg a b))) ↔
        (∃ cf, d.coredata_file = some cf ∧ d.build_file ≠ none ∧ cf.version ≠ tv)) ∧
    (∀ (bd : Chars) (cf : SnapFile α) (bf : BuildFile) (tv : Chars),
      conf_init bd ⟨some cf, some bf⟩ tv =
        if cf.version = tv then .ok (cf.payload, bf)
        else .error (.confExc (versionMismatchMsg tv cf.version))) ∧
    (∀ (bd : Chars) (d : BuildDirFiles α) (tv : Chars),
      (∃ c, conf_init bd d tv = .ok c) ↔
        (∃ cf bf, d.coredata_file = some cf ∧ d.build_file = some bf ∧ cf.version = tv)) := by
  refine ⟨?_, ?_, ?_, ?_⟩
  · intro bd d tv
    rcases d with ⟨cf, bf⟩
    cases cf with
    | none => cases bf <;> simp [conf_init]
    | some c =>
      cases bf with
      | none => simp [conf_init]
      | some b =>
        simp only [conf_init]
        split
        · simp
        · simp [versionMismatchMsg_ne_notConfMsg]
  · intro bd d tv
    rcases d with ⟨cf, bf⟩
    cases cf with
    | none =>
      cases bf <;> simp [conf_init] <;>
        exact fun a b h => versionMismatchMsg_ne_notConfMsg a b bd h.symm
    | some c =>
      cases bf with
      | none =>
        simp [conf_init]
        exact fun a b h => versionMismatchMsg_ne_notConfMsg a b bd h.symm
      | some b =>
        simp only [conf_init]
        split
        · rename_i hv
          simp [hv]
        · rename_i hv
          constructor
          · intro _
            exact ⟨c, rfl, by simp, hv⟩
          · intro _
            exact ⟨tv, c.version, rfl⟩
  · intro bd cf bf tv
    rfl
  · intro bd d tv
    rcases d with ⟨cf, bf⟩
    cases cf with
    | none => cases bf <;> simp [conf_init]
    | some c =>
      cases bf with
      | none => simp [conf_init]
      | some b =>
        simp only [conf_init]
        split <;> rename_i hv <;> simp [hv]

/-- C5: a directive line that does not tokenize into exactly two
whitespace-separated tokens fails with the malformed-directive error;
with exactly two tokens, an absent identifier yields the undefined
comment line, boolean true an enabled macro line, boolean false a
disabled macro line, an integer an enabled macro line with the decimal
value, a string an enabled macro line with the string verbatim, and
a value of any other kind the unknown-type error. -/
theorem C5_directive_rendering :
    (∀ line cd, (pySplitWs line).length ≠ 2 →
      do_mesondefine line cd = .error (mesondefineBadTokensMsg line)) ∧
    (∀ line cd m v, pySplitWs line = [m, v] → cLookup cd v = none →
      do_mesondefine line cd = .ok ("/* undef ".data ++ v ++ " */\n".data)) ∧
    (∀ line cd m v, pySplitWs line = [m, v] → cLookup cd v = some (.pbool true) →
      do_mesondefine line cd = .ok ("#define ".data ++ v ++ "\n".data)) ∧
    (∀ line cd m v, pySplitWs line = [m, v] → cLookup cd v = some (.pbool false) →
      do_mesondefine line cd = .ok ("#undef ".data ++ v ++ "\n".data)) ∧
    (∀ line cd m v n, pySplitWs line = [m, v] → cLookup cd v = some (.pint n) →
      do_mesondefine line cd = .ok ("#define ".data ++ v ++ " ".data ++ intChars n ++ "\n".data)) ∧
    (∀ line cd m v s, pySplitWs line = [m, v] → cLookup cd v = some (.pstr s) →
      do_mesondefine line cd = .ok ("#define ".data ++ v ++ " ".data ++ s ++ "\n".data)) ∧
    (∀ line cd m v xs, pySplitWs line = [m, v] → cLookup cd v = some (.plist xs) →
      do_mesondefine line cd = .error (mesondefineUnknownTypeMsg v)) := by
  refine ⟨?_, ?_, ?_, ?_, ?_, ?_, ?_⟩
  · intro line cd hlen
    unfold do_mesondefine
    rcases h : pySplitWs line with _ | ⟨a, _ | ⟨b, _ | ⟨c, t⟩⟩⟩
    · rfl
    · rfl
    · rw [h] at hlen; simp at hlen
    · rfl
  · intro line cd m v hs hl
    rw [do_mesondefine_two line cd m v hs, hl]
  · intro line cd m v hs hl
    rw [do_mesondefine_two line cd m v hs, hl]
  · intro line cd m v hs hl
    rw [do_mesondefine_two line cd m v hs, hl]
  · intro line cd m v n hs hl
    rw [do_mesondefine_two line cd m v hs, hl]
  · intro line cd m v s hs hl
    rw [do_mesondefine_two line cd m v hs, hl]
  · intro line cd m v xs hs hl
    rw [do_mesondefine_two line cd m v hs, hl]

/-- C5 witness: the directive line mesondefine FOO against the mapping
sending FOO to true renders as the enabled macro line for FOO. -/
theorem C5_witness :
    do_mesondefine ("#mesondefine FOO\n".data) [("FOO".data, PyVal.pbool true)] =
      .ok ("#define ".data ++ "FOO".data ++ "\n".data) :=
  C5_directive_rendering.2.2.1 ("#mesondefine FOO\n".data)
    [("FOO".data, PyVal.pbool true)] ("#mesondefine".data) ("FOO".data)
    (by decide) rfl

/-- C8: in mesonbuild/mconf.py a boolean table value renders as
exactly true or false and any other value as its own str unchanged,
but in mesonconf.py the renderer compares str of the value against the
literal True, so while booleans still render as true or false, every
non-boolean value is displayed as false: the combo value debug is
rendered as the string false instead of being displayed unchanged. -/
theorem C8_reporter_value_render :
    (∀ b, renderCellNew (.pbool b) = (if b then "true".data else "false".data)) ∧
    (∀ b, renderCellOld (.pbool b) = (if b then "true".data else "false".data)) ∧
    (∀ v, (∀ b, v ≠ .pbool b) → renderCellNew v = pyStr v) ∧
    renderCellNew (.pstr ("debug".data)) = "debug".data ∧
    renderCellOld (.pstr ("debug".data)) = "false".data := by
  refine ⟨fun b => by cases b <;> rfl, fun b => by cases b <;> rfl, ?_, rfl, by decide⟩
  intro v hv
  cases v with
  | pstr s => rfl
  | pint n => rfl
  | pbool b => exact absurd rfl (hv b)
  | plist xs => rfl

/-- C8 witness: the non-boolean table value debug is rendered by the
mesonbuild/mconf.py renderer as its own str. -/
theorem C8_witness :
    renderCellNew (.pstr ("debug".data)) = pyStr (.pstr ("debug".data)) :=
  C8_reporter_value_render.2.2.1 (.pstr ("debug".data)) (fun _ h => PyVal.noConfusion h)

/-- C9 counterexample: the textual input bracket-1-comma-2-bracket-
index-0 begins with a bracket, so it escapes the malformed-array check,
but Python eval reduces it to the integer 1, and validation fails with
the not-an-array error, which is neither of the two failure outcomes
the claim allows for a textual input. -/
theorem C9_counterexample :
    UserStringArrayOption_set_value (.pstr ("[1,2][0]".data)) (.pint 1) = .error notArrayMsg ∧
    notArrayMsg ≠ malformedArrayMsg ("[1,2][0]".data) ∧
    notArrayMsg ≠ nonStringElementMsg := by
  refine ⟨rfl, by decide, by decide⟩

/-- C9 (amended): a textual input fails with the malformed-array error
exactly when it does not begin with an opening bracket; when the input
is, or evaluates to, a list, validation fails with the non-string-
element error exactly when some element is not a string and succeeds
otherwise; but a textual input that begins with a bracket and whose
eval result is not a list fails with a third outcome, the
not-an-array error, and eval itself may raise arbitrary errors, so the
two named errors are not the only possible failures of a textual
input. -/
theorem C9_amended_thm :
    (∀ s er, s.head? ≠ some '[' →
      UserStringArrayOption_set_value (.pstr s) er = .error (malformedArrayMsg s)) ∧
    (∀ s xs, s.head? = some '[' →
      UserStringArrayOption_set_value (.pstr s) (.plist xs) =
        (if allStrings xs then .ok xs else .error nonStringElementMsg)) ∧
    (∀ s er, s.head? = some '[' → (∀ xs, er ≠ .plist xs) →
      UserStringArrayOption_set_value (.pstr s) er = .error notArrayMsg) ∧
    (∀ xs er, UserStringArrayOption_set_value (.plist xs) er =
      (if allStrings xs then .ok xs else .error nonStringElementMsg)) ∧
    (∀ xs, allStrings xs = true ↔ ∀ x ∈ xs, ∃ s, x = PyVal.pstr s) := by
  refine ⟨?_, ?_, ?_, fun xs er => rfl, allStrings_iff⟩
  · intro s er h
    simp [UserStringArrayOption_set_value, h]
  · intro s xs h
    simp [UserStringArrayOption_set_value, h]
  · intro s er h hnl
    cases er with
    | pstr t => simp [UserStringArrayOption_set_value, h]
    | pint n => simp [UserStringArrayOption_set_value, h]
    | pbool b => simp [UserStringArrayOption_set_value, h]
    | plist xs => exact absurd rfl (hnl xs)

/-- C9 witness: the textual input nope does not begin with a bracket
and fails with the malformed-array error. -/
theorem C9_witness :
    UserStringArrayOption_set_value (.pstr ("nope".data)) (.pint 0) =
      .error (malformedArrayMsg ("nope".data)) :=
  C9_amended_thm.1 ("nope".data) (.pint 0) (by decide)

/-- C1: when the rendered output is byte-identical to the existing
destination contents, the temporary file is discarded and the
destination record, modification time included, is left untouched;
otherwise the temporary file, carrying the rendered output, the fresh
modification time and the source's permission bits, replaces the
destination; and rendering the same template twice against an
unchanged mapping leaves the destination record untouched on the
second run. -/
theorem C1_render_commit_idempotent :
    (∀ fuel fs src dst cd m mo f out d,
      src ≠ dst ++ ['~'] → fs src = some f →
      renderLines fuel cd (readlines f.contents) = some (.ok out) →
      fs dst = some d → d.contents = out →
      ∃ fs', do_conf_file fuel fs src dst cd m mo = some (.ok fs') ∧
        fs' dst = fs dst ∧ fs' (dst ++ ['~']) = none) ∧
    (∀ fuel fs src dst cd m mo f out,
      src ≠ dst ++ ['~'] → fs src = some f →
      renderLines fuel cd (readlines f.contents) = some (.ok out) →
      (∀ d, fs dst = some d → d.contents ≠ out) →
      ∃ fs', do_conf_file fuel fs src dst cd m mo = some (.ok fs') ∧
        fs' dst = some ⟨out, m, f.mode⟩ ∧ fs' (dst ++ ['~']) = none) ∧
    (∀ fuel fs src dst cd m1 mo1 m2 mo2 fsA fsB,
      src ≠ dst → src ≠ dst ++ ['~'] →
      do_conf_file fuel fs src dst cd m1 mo1 = some (.ok fsA) →
      do_conf_file fuel fsA src dst cd m2 mo2 = some (.ok fsB) →
      fsB dst = fsA dst) := by
  refine ⟨?_, ?_, ?_⟩
  · intro fuel fs src dst cd m mo f out d hsd hsrc hr hd hc
    obtain ⟨fs', hrun, htmp', hoth', hmatch', hdiff'⟩ :=
      do_conf_file_commit fuel fs src dst cd m mo f out hsd hsrc hr
    exact ⟨fs', hrun, hmatch' ⟨d, hd, hc⟩, htmp'⟩
  · intro fuel fs src dst cd m mo f out hsd hsrc hr hall
    obtain ⟨fs', hrun, htmp', hoth', hmatch', hdiff'⟩ :=
      do_conf_file_commit fuel fs src dst cd m mo f out hsd hsrc hr
    exact ⟨fs', hrun, hdiff' hall, htmp'⟩
  · intro fuel fs src dst cd m1 mo1 m2 mo2 fsA fsB hsd0 hsd h1 h2
    obtain ⟨f, out, hsrc, hr⟩ := do_conf_file_ok_inv fuel fs src dst cd m1 mo1 fsA h1
    obtain ⟨fs', hrun, htmp', hoth', hmatch', hdiff'⟩ :=
      do_conf_file_commit fuel fs src dst cd m1 mo1 f out hsd hsrc hr
    have hA : fsA = fs' := by
      rw [h1] at hrun
      exact Except.ok.inj (Option.some.inj hrun)
    subst hA
    have hAdst : ∃ d1, fsA dst = some d1 ∧ d1.contents = out := by
      by_cases hex : ∃ d, fs dst = some d ∧ d.contents = out
      · obtain ⟨d, hd, hc⟩ := hex
        exact ⟨d, by rw [hmatch' ⟨d, hd, hc⟩, hd], hc⟩
      · have hall : ∀ d, fs dst = some d → d.contents ≠ out :=
          fun d hd hc => hex ⟨d, hd, hc⟩
        exact ⟨⟨out, m1, f.mode⟩, hdiff' hall, rfl⟩
    have hsrcA : fsA src = some f := by
      rw [hoth' src hsd0 hsd]
      exact hsrc
    obtain ⟨fs'', hrun2, htmp2, hoth2, hmatch2, hdiff2⟩ :=
      do_conf_file_commit fuel fsA src dst cd m2 mo2 f out hsd hsrcA hr
    have hB : fsB = fs'' := by
      rw [h2] at hrun2
      exact Except.ok.inj (Option.some.inj hrun2)
    subst hB
    exact hmatch2 hAdst

/-- C1 witness: rendering the one-line template hello against the
empty mapping into a destination that already holds hello leaves the
destination record untouched and discards the temporary file. -/
theorem C1_witness :
    ∃ fs', do_conf_file 1
        (fun p => if p = ("s".data) then some ⟨"hello\n".data, 5, 6⟩ else
          if p = ("d".data) then some ⟨"hello\n".data, 7, 8⟩ else none)
        ("s".data) ("d".data) [] 9 10 = some (.ok fs') ∧
      fs' ("d".data) =
        (fun p => if p = ("s".data) then some ⟨"hello\n".data, 5, 6⟩ else
          if p = ("d".data) then some ⟨"hello\n".data, 7, 8⟩ else none) ("d".data) ∧
      fs' ("d".data ++ ['~']) = none :=
  C1_render_commit_idempotent.1 1
    (fun p => if p = ("s".data) then some ⟨"hello\n".data, 5, 6⟩ else
      if p = ("d".data) then some ⟨"hello\n".data, 7, 8⟩ else none)
    ("s".data) ("d".data) [] 9 10 ⟨"hello\n".data, 5, 6⟩ ("hello\n".data)
    ⟨"hello\n".data, 7, 8⟩ (by decide) (by decide) (by rfl) (by decide) rfl

/-- C3: assignment entries are applied strictly in order (a batch that
starts with a succeeding segment continues from that segment's final
store); an entry without an equals sign fails immediately with the
malformed-assignment error and the rest of the batch is not applied;
the first failing entry aborts the batch with the store as mutated by
the preceding entries; and the run entry point calls save exactly when
the whole batch succeeded, passing the fully updated store, so nothing
is persisted on any failure. -/
theorem C3_batch_assignment :
    (∀ ev cd es1 es2 cd1, set_options ev cd es1 = (cd1, none) →
      set_options ev cd (es1 ++ es2) = set_options ev cd1 es2) ∧
    (∀ ev cd o rest, hasChar '=' o = false →
      set_options ev cd (o :: rest) =
        (cd, some (.confExc ("Value \"".data ++ o ++ "\" not of type \"a=b\".".data)))) ∧
    (∀ ev cd es1 e es2 cd1 err, set_options ev cd es1 = (cd1, none) →
      set_option_entry ev cd1 e = .error err →
      set_options ev cd (es1 ++ e :: es2) = (cd1, some err)) ∧
    (∀ ev bd d tv sets cd bf, conf_init bd d tv = .ok (cd, bf) → 0 < sets.length →
      (mconf_run ev bd d tv 1 sets).saved =
        (match set_options ev cd sets with
         | (cd', none) => some cd'
         | (_, some _) => none)) := by
  have h1 : ∀ ev cd es1 es2 cd1, set_options ev cd es1 = (cd1, none) →
      set_options ev cd (es1 ++ es2) = set_options ev cd1 es2 := by
    intro ev cd es1
    induction es1 generalizing cd with
    | nil =>
      intro es2 cd1 h
      simp only [set_options] at h
      have hc : cd = cd1 := congrArg Prod.fst h
      subst hc
      rw [List.nil_append]
    | cons o rest ih =>
      intro es2 cd1 h
      simp only [set_options, List.cons_append] at h ⊢
      cases he : set_option_entry ev cd o with
      | ok cd' =>
        rw [he] at h
        exact ih cd' es2 cd1 h
      | error e =>
        rw [he] at h
        exact absurd (congrArg Prod.snd h) (by simp)
  refine ⟨h1, ?_, ?_, ?_⟩
  · intro ev cd o rest h
    simp [set_options, set_option_entry, h]
  · intro ev cd es1 e es2 cd1 err hok herr
    rw [h1 ev cd es1 (e :: es2) cd1 hok]
    simp [set_options, herr]
  · intro ev bd d tv sets cd bf hinit hlen
    unfold mconf_run
    rw [if_neg (by omega), hinit]
    simp only [if_pos hlen]
    rcases hso : set_options ev cd sets with ⟨cd', err⟩
    cases err with
    | none => rfl
    | some e => cases e <;> rfl

/-- C3 witness: the batch with the single entry bogus, which has no
equals sign, fails with the malformed-assignment error and leaves the
empty store untouched. -/
theorem C3_witness :
    set_options (fun _ => none) ⟨[], [], [], [], []⟩ [("bogus".data)] =
      (⟨[], [], [], [], []⟩,
       some (.confExc ("Value \"".data ++ "bogus".data ++ "\" not of type \"a=b\".".data))) :=
  C3_batch_assignment.2.1 (fun _ => none) ⟨[], [], [], [], []⟩ ("bogus".data) [] (by decide)

/-- C6 counterexample: the claim says a mapping value that is neither
a string nor an integer raises the fail-fast internal error during
substitution, but a boolean is a subclass of int in Python, so the
line with the placeholder B against the mapping sending B to boolean
true substitutes successfully and renders as the string True. -/
theorem C6_counterexample :
    do_replacement 2 ("@B@".data) [("B".data, PyVal.pbool true)] =
      some (.ok ("True".data)) := by
  rfl

/-- C6 (amended): the engine repeatedly replaces the leftmost
placeholder with the mapped value, string verbatim and integer in
decimal, or with the empty string when the identifier is absent, until
no placeholder pattern remains (a run that finishes with ok has no
remaining match); the two examples of the claim hold; but a boolean
value does not raise: it passes the isinstance int check and
substitutes as Python str of the bool, and only a value of any other
kind, such as a list, raises the fail-fast internal error. -/
theorem C6_amended_thm :
    (do_replacement 3 ("@NAME@-@COUNT@".data)
      [("NAME".data, PyVal.pstr ("x".data)), ("COUNT".data, PyVal.pint 3)] =
      some (.ok ("x-3".data))) ∧
    (do_replacement 2 ("@MISSING@".data) [] = some (.ok [])) ∧
    (∀ b, do_replacement 2 ("@B@".data) [("B".data, PyVal.pbool b)] =
      some (.ok (boolChars b))) ∧
    (∀ xs, do_replacement 1 ("@L@".data) [("L".data, PyVal.plist xs)] =
      some (.error ("Tried to replace a variable with something other than a string or int.".data))) ∧
    (∀ fuel line cd r, do_replacement fuel line cd = some (.ok r) → findVarname r = none) := by
  refine ⟨rfl, rfl, fun b => by cases b <;> rfl, fun xs => rfl, ?_⟩
  intro fuel
  induction fuel with
  | zero => intro line cd r h; exact absurd h (by simp [do_replacement])
  | succ n ih =>
    intro line cd r h
    rw [do_replacement_succ] at h
    split at h
    · rename_i hf
      obtain rfl : line = r := Except.ok.inj (Option.some.inj h)
      assumption
    · rename_i var hf
      split at h
      · exact ih _ _ _ h
      · exact ih _ _ _ h
      · exact ih _ _ _ h
      · simp at h
      · exact ih _ _ _ h

/-- C6 witness: the complete run on the missing-identifier example ends
in a line with no remaining placeholder match. -/
theorem C6_witness : findVarname [] = none :=
  C6_amended_thm.2.2.2.2 2 ("@MISSING@".data) [] [] (by rfl)

/-- C7: in mesonbuild/mconf.py the exit code of run is 0 exactly when
the invocation succeeded (snapshot loaded and, when assignments were
given, the whole batch validated) and 1 in every other case; but the
older mesonconf.py entry point catches the ConfException of an
unconfigured directory, prints the fixed lead-in line, and then falls
off the end of the module, ending the process with status 0 instead of
the claimed status 1, as the evaluation at an unconfigured build
directory shows. -/
theorem C7_exit_status :
    (∀ ev bd (d : BuildDirFiles Coredata) tv sets,
      (mconf_run ev bd d tv 1 sets).exitCode = 0 ∨
        (mconf_run ev bd d tv 1 sets).exitCode = 1) ∧
    (∀ ev bd (d : BuildDirFiles Coredata) tv sets,
      (mconf_run ev bd d tv 1 sets).exitCode = 0 ↔
        (∃ cd bf, conf_init bd d tv = .ok (cd, bf) ∧
          (0 < sets.length → (set_options ev cd sets).2 = none))) ∧
    (mesonconf_main [] [] [] (fun _ => none) ("builddir".data)
        ⟨none, none⟩ ("0.1.0".data) 0 [] = ⟨0, true, none⟩) ∧
    (mconf_run (fun _ => none) ("builddir".data)
        ⟨none, none⟩ ("0.1.0".data) 0 [] = ⟨1, true, none⟩) := by
  have hrun : ∀ ev bd (d : BuildDirFiles Coredata) tv sets,
      mconf_run ev bd d tv 1 sets =
        (match conf_init bd d tv with
         | .error (.confExc _) => ⟨1, true, none⟩
         | .error _ => ⟨1, false, none⟩
         | .ok (cd, _) =>
           if 0 < sets.length then
             match set_options ev cd sets with
             | (cd', none) => ⟨0, false, some cd'⟩
             | (_, some (.confExc _)) => ⟨1, true, none⟩
             | (_, some _) => ⟨1, false, none⟩
           else ⟨0, false, none⟩) := by
    intro ev bd d tv sets
    unfold mconf_run
    rw [if_neg (by omega)]
  refine ⟨?_, ?_, rfl, rfl⟩
  · intro ev bd d tv sets
    rw [hrun]
    cases hinit : conf_init bd d tv with
    | error e => cases e <;> simp
    | ok c =>
      rcases c with ⟨cd, bf⟩
      by_cases hlen : 0 < sets.length
      · rcases hso : set_options ev cd sets with ⟨cd', err⟩
        cases err with
        | none => simp [hlen, hso]
        | some e => cases e <;> simp [hlen, hso]
      · simp [hlen]
  · intro ev bd d tv sets
    rw [hrun]
    cases hinit : conf_init bd d tv with
    | error e =>
      cases e <;> simp
    | ok c =>
      rcases c with ⟨cd, bf⟩
      by_cases hlen : 0 < sets.length
      · rcases hso : set_options ev cd sets with ⟨cd', err⟩
        cases err with
        | none => simp [hlen, hso]
        | some e => cases e <;> simp [hlen, hso]
      · simp [hlen]

/-! Termination development for the substitution loop. -/

theorem atCount_append (a b : Chars) : atCount (a ++ b) = atCount a + atCount b := by
  induction a with
  | nil => simp [atCount]
  | cons c rest ih =>
    simp [atCount, ih]
    omega

theorem hasChar_false_atCount (s : Chars) (h : hasChar '@' s = false) : atCount s = 0 := by
  induction s with
  | nil => rfl
  | cons c rest ih =>
    simp only [hasChar, Bool.or_eq_false_iff] at h
    have hc : ¬ c = '@' := by simpa using h.1
    simp [atCount, hc, ih h.2]

theorem takeWhile_no_at (rest : Chars) :
    hasChar '@' (rest.takeWhile (fun d => d != '@')) = false := by
  induction rest with
  | nil => rfl
  | cons c t ih =>
    by_cases hc : c = '@'
    · simp [List.takeWhile_cons, hc, hasChar]
    · simp [List.takeWhile_cons, hc, hasChar, ih]

theorem contains_split (rest : Chars) (h : hasChar '@' rest = true) :
    ∃ suf, rest = rest.takeWhile (fun d => d != '@') ++ '@' :: suf := by
  induction rest with
  | nil => simp [hasChar] at h
  | cons c t ih =>
    by_cases hc : c = '@'
    · subst hc
      exact ⟨t, by simp [List.takeWhile_cons]⟩
    · have ht : hasChar '@' t = true := by
        simp only [hasChar, Bool.or_eq_true] at h
        rcases h with h | h
        · exact absurd (by simpa using h) hc
        · exact h
      obtain ⟨suf, hsuf⟩ := ih ht
      refine ⟨suf, ?_⟩
      rw [List.takeWhile_cons]
      simp only [show (c != '@') = true by simpa using hc, if_true, List.cons_append]
      rw [← hsuf]

theorem findVarname_split (cs : Chars) : ∀ var, findVarname cs = some var →
    (∃ pre suf, cs = pre ++ '@' :: (var ++ '@' :: suf)) ∧ hasChar '@' var = false := by
  induction cs with
  | nil => intro var h; simp [findVarname] at h
  | cons c rest ih =>
    intro var h
    by_cases hc : c = '@'
    · subst hc
      rw [show findVarname ('@' :: rest) =
          (if hasChar '@' rest && !(hasChar '\n' (rest.takeWhile (fun d => d != '@')))
           then some (rest.takeWhile (fun d => d != '@'))
           else findVarname rest) from by simp [findVarname]] at h
      by_cases hcond :
          (hasChar '@' rest && !(hasChar '\n' (rest.takeWhile (fun d => d != '@')))) = true
      · rw [if_pos hcond] at h
        obtain rfl : rest.takeWhile (fun d => d != '@') = var := Option.some.inj h
        refine ⟨?_, takeWhile_no_at rest⟩
        have hcont : hasChar '@' rest = true := by
          simp only [Bool.and_eq_true] at hcond
          exact hcond.1
        obtain ⟨suf, hsuf⟩ := contains_split rest hcont
        refine ⟨[], suf, ?_⟩
        rw [List.nil_append, ← hsuf]
      · rw [if_neg hcond] at h
        obtain ⟨⟨pre, suf, hdec⟩, hvar⟩ := ih var h
        exact ⟨⟨'@' :: pre, suf, by rw [hdec]; rfl⟩, hvar⟩
    · rw [show findVarname (c :: rest) = findVarname rest from by
        simp [findVarname, hc]] at h
      obtain ⟨⟨pre, suf, hdec⟩, hvar⟩ := ih var h
      exact ⟨⟨c :: pre, suf, by rw [hdec]; rfl⟩, hvar⟩

theorem isPrefixOf_exists (p : Chars) : ∀ l, p.isPrefixOf l = true ↔ ∃ t, l = p ++ t := by
  induction p with
  | nil =>
    intro l
    simp [List.isPrefixOf]
  | cons a p' ih =>
    intro l
    cases l with
    | nil => simp [List.isPrefixOf]
    | cons b l' =>
      simp only [List.isPrefixOf, Bool.and_eq_true, beq_iff_eq, ih l', List.cons_append,
        List.cons.injEq]
      constructor
      · rintro ⟨rfl, t, rfl⟩
        exact ⟨t, rfl, rfl⟩
      · rintro ⟨t, rfl, rfl⟩
        exact ⟨rfl, t, rfl⟩

theorem replaceOccGo_atCount_le (var val : Chars) (hval : atCount val = 0) :
    ∀ fuel cs, cs.length ≤ fuel →
      atCount (replaceOccGo var val fuel cs) ≤ atCount cs := by
  intro fuel
  induction fuel with
  | zero =>
    intro cs hlen
    cases cs with
    | nil => simp [replaceOccGo]
    | cons c rest => simp at hlen
  | succ n ih =>
    intro cs hlen
    cases cs with
    | nil => simp [replaceOccGo]
    | cons c rest =>
      rw [show replaceOccGo var val (n + 1) (c :: rest) =
          (if (('@' :: (var ++ ['@'])) : Chars).isPrefixOf (c :: rest) then
            val ++ replaceOccGo var val n (rest.drop (var.length + 1))
          else c :: replaceOccGo var val n rest) from rfl]
      by_cases hpre : (('@' :: (var ++ ['@'])) : Chars).isPrefixOf (c :: rest) = true
      · rw [if_pos hpre]
        obtain ⟨t, ht⟩ := (isPrefixOf_exists _ _).mp hpre
        have hlp : (('@' :: (var ++ ['@'])) : Chars).length = var.length + 2 := by
          simp
        have hdrop : rest.drop (var.length + 1) = t := by
          have := congrArg (List.drop (var.length + 2)) ht
          rw [List.drop_succ_cons] at this
          rw [this, ← hlp, List.drop_left]
        have hlt : t.length ≤ n := by
          have h1 := congrArg List.length ht
          simp at h1 hlen
          omega
        have hct : atCount (c :: rest) = atCount ('@' :: (var ++ ['@'])) + atCount t := by
          rw [ht, atCount_append]
        rw [atCount_append, hval, hdrop, hct]
        have := ih t hlt
        omega
      · rw [if_neg hpre]
        have hrest : rest.length ≤ n := by
          simp at hlen
          omega
        have := ih rest hrest
        simp only [atCount]
        omega

theorem replaceOccGo_atCount_lt (var val : Chars) (hval : atCount val = 0)
    (hvar : hasChar '@' var = false) :
    ∀ fuel cs, cs.length ≤ fuel →
      (∃ pre suf, cs = pre ++ '@' :: (var ++ '@' :: suf)) →
      atCount (replaceOccGo var val fuel cs) + 2 ≤ atCount cs := by
  have hvar0 : atCount var = 0 := hasChar_false_atCount var hvar
  have hpat : atCount ('@' :: (var ++ ['@'])) = 2 := by
    simp [atCount, atCount_append, hvar0]
  intro fuel
  induction fuel with
  | zero =>
    intro cs hlen ⟨pre, suf, hdec⟩
    rw [hdec] at hlen
    simp at hlen
  | succ n ih =>
    intro cs hlen hocc
    obtain ⟨pre, suf, hdec⟩ := hocc
    cases cs with
    | nil =>
      exact absurd hdec.symm (by simp)
    | cons c rest =>
      rw [show replaceOccGo var val (n + 1) (c :: rest) =
          (if (('@' :: (var ++ ['@'])) : Chars).isPrefixOf (c :: rest) then
            val ++ replaceOccGo var val n (rest.drop (var.length + 1))
          else c :: replaceOccGo var val n rest) from rfl]
      by_cases hpre : (('@' :: (var ++ ['@'])) : Chars).isPrefixOf (c :: rest) = true
      · rw [if_pos hpre]
        obtain ⟨t, ht⟩ := (isPrefixOf_exists _ _).mp hpre
        have hlp : (('@' :: (var ++ ['@'])) : Chars).length = var.length + 2 := by
          simp
        have hdrop : rest.drop (var.length + 1) = t := by
          have := congrArg (List.drop (var.length + 2)) ht
          rw [List.drop_succ_cons] at this
          rw [this, ← hlp, List.drop_left]
        have hlt : t.length ≤ n := by
          have h1 := congrArg List.length ht
          simp at h1 hlen
          omega
        have hct : atCount (c :: rest) = atCount ('@' :: (var ++ ['@'])) + atCount t := by
          rw [ht, atCount_append]
        rw [atCount_append, hval, hdrop, hct, hpat]
        have := replaceOccGo_atCount_le var val hval n t hlt
        omega
      · rw [if_neg hpre]
        cases pre with
        | nil =>
          exfalso
          apply hpre
          apply (isPrefixOf_exists _ _).mpr
          refine ⟨suf, ?_⟩
          rw [hdec, List.nil_append]
          simp
        | cons c' pre' =>
          rw [List.cons_append] at hdec
          have hc : c = c' := (List.cons.injEq .. ▸ hdec).1
          have hrest : rest = pre' ++ '@' :: (var ++ '@' :: suf) :=
            (List.cons.injEq .. ▸ hdec).2
          have hlenr : rest.length ≤ n := by
            simp at hlen
            omega
          have := ih rest hlenr ⟨pre', suf, hrest⟩
          simp only [atCount]
          omega

theorem digitChar_ne_at (n : Nat) : Nat.digitChar n ≠ '@' := by
  by_cases h : n < 16
  · interval_cases n <;> decide
  · have h' : Nat.digitChar n = '*' := by
      unfold Nat.digitChar
      repeat rw [if_neg (by omega)]
    rw [h']
    decide

theorem do_replacement_found (n : Nat) (line var : Chars) (cd : Confdata)
    (hf : findVarname line = some var) :
    do_replacement (n + 1) line cd =
      match cLookup cd var with
      | some (.pstr s) => do_replacement n (replaceOcc var s line) cd
      | some (.pint m) => do_replacement n (replaceOcc var (intChars m) line) cd
      | some (.pbool b) => do_replacement n (replaceOcc var (boolChars b) line) cd
      | some (.plist _) =>
        some (.error ("Tried to replace a variable with something other than a string or int.".data))
      | none => do_replacement n (replaceOcc var [] line) cd := by
  rw [do_replacement_succ, hf]

theorem natDigitsGo_atCount (fuel : Nat) : ∀ n, atCount (natDigitsGo fuel n) = 0 := by
  induction fuel with
  | zero =>
    intro n
    simp [natDigitsGo, atCount, digitChar_ne_at n]
  | succ m ih =>
    intro n
    rw [show natDigitsGo (m + 1) n =
        (if n < 10 then [Nat.digitChar n]
         else natDigitsGo m (n / 10) ++ [Nat.digitChar (n % 10)]) from rfl]
    by_cases h : n < 10
    · simp [h, atCount, digitChar_ne_at n]
    · simp [h, atCount_append, ih, atCount, digitChar_ne_at (n % 10)]

theorem intChars_atCount (i : Int) : atCount (intChars i) = 0 := by
  unfold intChars natDigits
  by_cases h : i < 0 <;> simp [h, atCount, natDigitsGo_atCount]

theorem boolChars_atCount (b : Bool) : atCount (boolChars b) = 0 := by
  cases b <;> rfl

theorem cdNoAt_lookup (cd : Confdata) (k s : Chars)
    (hno : cdNoAt cd = true) (hl : cLookup cd k = some (.pstr s)) :
    hasChar '@' s = false := by
  induction cd with
  | nil => simp [cLookup] at hl
  | cons p rest ih =>
    obtain ⟨k', v⟩ := p
    simp only [cdNoAt, Bool.and_eq_true] at hno
    rw [show cLookup ((k', v) :: rest) k =
        (if k' = k then some v else cLookup rest k) from rfl] at hl
    by_cases hk : k' = k
    · rw [if_pos hk] at hl
      obtain rfl : v = PyVal.pstr s := Option.some.inj hl
      have := hno.1
      simp only [valNoAt, Bool.not_eq_true'] at this
      exact this
    · rw [if_neg hk] at hl
      exact ih hno.2 hl

theorem do_replacement_terminates (n : Nat) : ∀ (cd : Confdata) (cs : Chars),
    cdNoAt cd = true → atCount cs ≤ n →
    (do_replacement (n + 1) cs cd).isSome = true := by
  induction n with
  | zero =>
    intro cd cs hno hcnt
    cases hf : findVarname cs with
    | none =>
      rw [do_replacement_succ, hf]
      simp
    | some var =>
      obtain ⟨⟨pre, suf, hdec⟩, hvar⟩ := findVarname_split cs var hf
      exfalso
      rw [hdec, atCount_append] at hcnt
      simp [atCount] at hcnt
  | succ m ih =>
    intro cd cs hno hcnt
    cases hf : findVarname cs with
    | none =>
      rw [do_replacement_succ, hf]
      simp
    | some var =>
      obtain ⟨⟨pre, suf, hdec⟩, hvar⟩ := findVarname_split cs var hf
      rw [do_replacement_found (m + 1) cs var cd hf]
      have hocc : ∃ pre suf, cs = pre ++ '@' :: (var ++ '@' :: suf) := ⟨pre, suf, hdec⟩
      have hstep : ∀ val, atCount val = 0 →
          atCount (replaceOcc var val cs) ≤ m := by
        intro val hval
        have := replaceOccGo_atCount_lt var val hval hvar cs.length cs le_rfl hocc
        unfold replaceOcc
        omega
      cases hl : cLookup cd var with
      | none =>
        exact ih cd (replaceOcc var [] cs) hno (hstep [] rfl)
      | some v =>
        cases v with
        | pstr s =>
          exact ih cd (replaceOcc var s cs) hno
            (hstep s (hasChar_false_atCount s (cdNoAt_lookup cd var s hno hl)))
        | pint k =>
          exact ih cd (replaceOcc var (intChars k) cs) hno (hstep _ (intChars_atCount k))
        | pbool b =>
          exact ih cd (replaceOcc var (boolChars b) cs) hno (hstep _ (boolChars_atCount b))
        | plist xs => simp

theorem replaceOccGo_replicate (val : Chars) : ∀ fuel n,
    replaceOccGo (['A']) val fuel (List.replicate n 'x') = List.replicate n 'x' := by
  intro fuel
  induction fuel with
  | zero =>
    intro n
    cases n with
    | zero => rfl
    | succ k => rfl
  | succ f ih =>
    intro n
    cases n with
    | zero => rfl
    | succ k =>
      rw [show replaceOccGo ['A'] val (f + 1) (List.replicate (k + 1) 'x') =
          'x' :: replaceOccGo ['A'] val f (List.replicate k 'x') from rfl, ih k]
      rfl

theorem replaceOcc_state (n : Nat) :
    replaceOcc (['A']) ("@A@x".data) ('@' :: 'A' :: '@' :: List.replicate n 'x') =
      '@' :: 'A' :: '@' :: List.replicate (n + 1) 'x' := by
  have hpre : (('@' :: (['A'] ++ ['@'])) : Chars).isPrefixOf
      ('@' :: 'A' :: '@' :: List.replicate n 'x') = true :=
    (isPrefixOf_exists _ _).mpr ⟨List.replicate n 'x', rfl⟩
  have h1 : replaceOcc (['A']) ("@A@x".data) ('@' :: 'A' :: '@' :: List.replicate n 'x') =
      "@A@x".data ++ replaceOccGo ['A'] ("@A@x".data) (n + 2) (List.replicate n 'x') := by
    unfold replaceOcc
    rw [show ('@' :: 'A' :: '@' :: List.replicate n 'x').length = (n + 2) + 1 from by
      simp]
    rw [show replaceOccGo ['A'] ("@A@x".data) ((n + 2) + 1)
        ('@' :: 'A' :: '@' :: List.replicate n 'x') =
        (if (('@' :: (['A'] ++ ['@'])) : Chars).isPrefixOf
            ('@' :: 'A' :: '@' :: List.replicate n 'x') then
          "@A@x".data ++ replaceOccGo ['A'] ("@A@x".data) (n + 2) (List.replicate n 'x')
        else '@' :: replaceOccGo ['A'] ("@A@x".data) (n + 2)
          ('A' :: '@' :: List.replicate n 'x')) from rfl]
    rw [if_pos hpre]
  rw [h1, replaceOccGo_replicate ("@A@x".data) (n + 2) n]
  rfl

theorem do_replacement_diverges_aux : ∀ fuel n,
    do_replacement fuel ('@' :: 'A' :: '@' :: List.replicate n 'x')
      [("A".data, PyVal.pstr ("@A@x".data))] = none := by
  intro fuel
  induction fuel with
  | zero => intro n; rfl
  | succ f ih =>
    intro n
    have hf : findVarname ('@' :: 'A' :: '@' :: List.replicate n 'x') = some ['A'] := rfl
    rw [do_replacement_found f _ _ _ hf]
    show do_replacement f
      (replaceOcc ['A'] ("@A@x".data) ('@' :: 'A' :: '@' :: List.replicate n 'x'))
      [("A".data, PyVal.pstr ("@A@x".data))] = none
    rw [replaceOcc_state n]
    exact ih (n + 1)

/-- C10: provided that no string value of the Configuration Mapping
contains an at-sign character, the substitution loop of do_replacement
terminates on every input line, because each replacement removes at
least two at-sign characters from the line and introduces none; and
the precondition is essential, since against the mapping sending A to
the string at-A-at-x the loop on the line at-A-at rewrites forever and
no amount of fuel completes it. -/
theorem C10_substitution_termination :
    (∀ cd line, cdNoAt cd = true →
      ∃ fuel, (do_replacement fuel line cd).isSome = true) ∧
    (∀ fuel, do_replacement fuel ("@A@".data)
      [("A".data, PyVal.pstr ("@A@x".data))] = none) := by
  constructor
  · intro cd line hno
    exact ⟨atCount line + 1, do_replacement_terminates (atCount line) cd line hno le_rfl⟩
  · intro fuel
    exact do_replacement_diverges_aux fuel 0

/-- C10 witness: the empty mapping has no string value containing an
at-sign, so the loop terminates on the line hi. -/
theorem C10_witness :
    ∃ fuel, (do_replacement fuel ("hi".data) []).isSome = true :=
  C10_substitution_termination.1 [] ("hi".data) rfl
